import Mathlib

/-!
Verification of the feature-engineering core of the hospital-readmission
pipeline (src/src/utils.py, src/src/data_preprocessing.py, src/src/train.py,
src/src/inference.py).

Modelling conventions for the shallow embedding:
* A pandas/numpy scalar cell is a `PyVal`: the missing marker (`np.nan`,
  `None`, `pd.NA` — everything `pd.isna` accepts), a string, a finite
  number (exact rational, see below), or an infinity.
* Python floating point is modelled with exact rational arithmetic: the
  numeric strings handled by this code ("250", "999", midpoints of small
  integer buckets) are exactly representable, so range comparisons and
  midpoints agree with the source.
* Character-level `str.strip`/`str.lower`/`str.upper`/`str.capitalize`
  are modelled over the ASCII range (the data's code strings, bucket
  strings and sentinel tokens are ASCII).
-/

namespace Readmit

/-- A scalar cell value as it appears in a pandas frame read from CSV. -/
inductive PyVal where
  | nan
  | str (s : String)
  | num (q : Rat)
  | pinf
  | ninf
deriving DecidableEq

/-- Python `str.strip()` whitespace (ASCII part). -/
def isPySpace (c : Char) : Bool :=
  c = ' ' ∨ c = '\t' ∨ c = '\n' ∨ c = '\x0d' ∨ c = '\x0b' ∨ c = '\x0c'

/-- ASCII `str.lower` on one character. -/
def lowerChar : Char → Char
  | 'A' => 'a' | 'B' => 'b' | 'C' => 'c' | 'D' => 'd' | 'E' => 'e'
  | 'F' => 'f' | 'G' => 'g' | 'H' => 'h' | 'I' => 'i' | 'J' => 'j'
  | 'K' => 'k' | 'L' => 'l' | 'M' => 'm' | 'N' => 'n' | 'O' => 'o'
  | 'P' => 'p' | 'Q' => 'q' | 'R' => 'r' | 'S' => 's' | 'T' => 't'
  | 'U' => 'u' | 'V' => 'v' | 'W' => 'w' | 'X' => 'x' | 'Y' => 'y'
  | 'Z' => 'z' | c => c

/-- ASCII `str.upper` on one character. -/
def upperChar : Char → Char
  | 'a' => 'A' | 'b' => 'B' | 'c' => 'C' | 'd' => 'D' | 'e' => 'E'
  | 'f' => 'F' | 'g' => 'G' | 'h' => 'H' | 'i' => 'I' | 'j' => 'J'
  | 'k' => 'K' | 'l' => 'L' | 'm' => 'M' | 'n' => 'N' | 'o' => 'O'
  | 'p' => 'P' | 'q' => 'Q' | 'r' => 'R' | 's' => 'S' | 't' => 'T'
  | 'u' => 'U' | 'v' => 'V' | 'w' => 'W' | 'x' => 'X' | 'y' => 'Y'
  | 'z' => 'Z' | c => c

/-- Remove trailing Python whitespace from a character list. -/
def rstripL : List Char → List Char
  | [] => []
  | c :: cs =>
    match rstripL cs with
    | [] => if isPySpace c then [] else [c]
    | r => c :: r

/-- Model of Python `str.strip()` on a character list. -/
def stripL (l : List Char) : List Char :=
  rstripL (l.dropWhile isPySpace)

/-- Model of Python `str.strip()`. -/
def pyStrip (s : String) : String := ⟨stripL s.data⟩

/-- Model of Python `str.lower()` (ASCII). -/
def pyLower (s : String) : String := ⟨s.data.map lowerChar⟩

/-- Model of Python `str.upper()` (ASCII). -/
def pyUpper (s : String) : String := ⟨s.data.map upperChar⟩

/-- Model of Python `str.capitalize()` (ASCII): first character upper-cased,
the rest lower-cased. -/
def pyCapitalize (s : String) : String :=
  match s.data with
  | [] => ""
  | c :: t => ⟨upperChar c :: t.map lowerChar⟩

/-- Value of a list of ASCII digit characters, as Python `int()` reads it. -/
def digitsVal (l : List Char) : Nat :=
  l.foldl (fun a c => 10 * a + (c.toNat - 48)) 0

/-- Result of Python `float()`: a finite value (kept exact as a rational),
an infinity, or a nan. -/
inductive PFloat where
  | finite (q : Rat)
  | pinf
  | ninf
  | nan
deriving DecidableEq

/-- Consume a maximal run of digits possibly separated by single
underscores (Python numeric-literal rule: an underscore must sit between
two digits). Returns the accumulated value, the number of digits
consumed, and the rest of the input; fails on a dangling underscore. -/
def udigitsGo (acc nd : Nat) (afterU : Bool) :
    List Char → Option (Nat × Nat × List Char)
  | [] => if afterU then none else some (acc, nd, [])
  | c :: cs =>
    if c.isDigit then udigitsGo (10 * acc + (c.toNat - 48)) (nd + 1) false cs
    else if c = '_' then
      if afterU then none else udigitsGo acc nd true cs
    else if afterU then none else some (acc, nd, c :: cs)

/-- Entry point; callers invoke it on input whose head is a digit. -/
def udigits (acc nd : Nat) (l : List Char) : Option (Nat × Nat × List Char) :=
  udigitsGo acc nd false l

/-- Optional sign at the head of a numeric literal. -/
def parseSign : List Char → Int × List Char
  | '+' :: r => (1, r)
  | '-' :: r => (-1, r)
  | l => (1, l)

/-- The mantissa of a Python float literal: `digits`, `digits.`,
`digits.digits` or `.digits` (digits may contain medial underscores).
Returns the integer part, the fraction digits' value, the number of
fraction digits (the triple denotes `ip + f / 10^nf`), and the
unconsumed rest. -/
def parseMantissa : List Char → Option ((Nat × Nat × Nat) × List Char)
  | [] => none
  | '.' :: r =>
    match r with
    | [] => none
    | d :: _ =>
      if d.isDigit then
        match udigits 0 0 r with
        | some (f, nf, rest) => some ((0, f, nf), rest)
        | none => none
      else none
  | c :: cs =>
    if c.isDigit then
      match udigits 0 0 (c :: cs) with
      | none => none
      | some (ip, _, rest) =>
        match rest with
        | '.' :: r2 =>
          match r2 with
          | [] => some ((ip, 0, 0), [])
          | d :: _ =>
            if d.isDigit then
              match udigits 0 0 r2 with
              | some (f, nf, rest2) => some ((ip, f, nf), rest2)
              | none => none
            else some ((ip, 0, 0), r2)
        | _ => some ((ip, 0, 0), rest)
    else none

/-- The exponent suffix of a Python float literal (empty input means no
exponent). -/
def parseExp : List Char → Option Int
  | [] => some 0
  | e :: r =>
    if e = 'e' ∨ e = 'E' then
      let sr := parseSign r
      match sr.2 with
      | [] => none
      | d :: _ =>
        if d.isDigit then
          match udigits 0 0 sr.2 with
          | some (ex, _, []) => some (sr.1 * (ex : Int))
          | _ => none
        else none
    else none

/-- The exact rational `sg * (ip + f / 10^nf) * 10^e`, built with `mkRat`
so that it evaluates by kernel reduction (the `Rat` field operations are
irreducible); `sciVal_eq` below proves it equal to that expression. -/
def sciVal (sg : Int) (ip f nf : Nat) (e : Int) : Rat :=
  let numTop : Int := sg * ((ip * 10 ^ nf + f : Nat) : Int)
  if 0 ≤ e then mkRat (numTop * ((10 ^ e.toNat : Nat) : Int)) (10 ^ nf)
  else mkRat numTop (10 ^ nf * 10 ^ (-e).toNat)

/-- Model of Python `float(s)` on a character list: strip whitespace,
optional sign, then `inf`/`infinity`/`nan` (case-insensitive) or a
mantissa with optional exponent. The value is kept exact (no binary
rounding); every numeric comparison the pipeline performs is against
small integer bounds, where exact and IEEE evaluation agree. -/
def pyFloat (l0 : List Char) : Option PFloat :=
  let l := stripL l0
  let sl := parseSign l
  let low := sl.2.map lowerChar
  if low = ['i', 'n', 'f'] ∨ low = ['i', 'n', 'f', 'i', 'n', 'i', 't', 'y'] then
    some (if sl.1 = 1 then .pinf else .ninf)
  else if low = ['n', 'a', 'n'] then some .nan
  else
    match parseMantissa sl.2 with
    | none => none
    | some (m, rest) =>
      match parseExp rest with
      | none => none
      | some e => some (.finite (sciVal sl.1 m.1 m.2.1 m.2.2 e))

/-! ## src/src/utils.py -/

/-- `ICD_CHAPTERS` from src/src/utils.py: chapter name with inclusive
numeric range, in the source's (insertion) order. -/
def ICD_CHAPTERS : List (String × Int × Int) :=
  [("infectious", 1, 139),
   ("neoplasms", 140, 239),
   ("endocrine_metabolic", 240, 279),
   ("blood", 280, 289),
   ("mental", 290, 319),
   ("nervous", 320, 389),
   ("circulatory", 390, 459),
   ("respiratory", 460, 519),
   ("digestive", 520, 579),
   ("genitourinary", 580, 629),
   ("pregnancy", 630, 679),
   ("skin", 680, 709),
   ("musculoskeletal", 710, 739),
   ("congenital", 740, 759),
   ("perinatal", 760, 779),
   ("ill_defined", 780, 799),
   ("injury", 800, 999)]

/-- The regex `\[(\d+)-(\d+)\)` applied with `re.match` (anchored at the
start only, so trailing characters are allowed): open bracket, a maximal
nonempty digit run, a dash, a maximal nonempty digit run, a closing
parenthesis. Returns the two `int()` group values. -/
def parseAgeBucket : List Char → Option (Nat × Nat)
  | '[' :: r =>
    match r.takeWhile Char.isDigit with
    | [] => none
    | d1 =>
      match r.dropWhile Char.isDigit with
      | '-' :: r2 =>
        match r2.takeWhile Char.isDigit with
        | [] => none
        | d2 =>
          match r2.dropWhile Char.isDigit with
          | ')' :: _ => some (digitsVal d1, digitsVal d2)
          | _ => none
      | _ => none
  | _ => none

/-- `age_midpoint` from src/src/utils.py: on a string, strip it and match
the bucket regex; on a match return `(a + b) / 2.0`; otherwise (including
every non-string input) return `np.nan`. -/
def age_midpoint : PyVal → PyVal
  | .str s =>
    match parseAgeBucket (pyStrip s).data with
    | some (a, b) => .num (mkRat ((a : Int) + (b : Int)) 2)
    | none => .nan
  | _ => .nan

/-- `lo <= x <= hi` on the parsed code value, as Python evaluates it
(an infinity or nan never satisfies both bounds). -/
def inChapterRange (lo hi : Int) : PFloat → Bool
  | .finite q => decide ((lo : Rat) ≤ q) && decide (q ≤ (hi : Rat))
  | _ => false

/-- The `for name, (lo, hi) in ICD_CHAPTERS.items()` loop from
src/src/utils.py: first range containing the value wins, else "other". -/
def chapterLookup (x : PFloat) : String :=
  match ICD_CHAPTERS.find? (fun e => inChapterRange e.2.1 e.2.2 x) with
  | some e => e.1
  | none => "other"

/-- `icd_to_chapter` from src/src/utils.py: non-strings and strings that
strip to "?" or "" are "unknown"; a leading V/v or E/e picks a
supplemental chapter; otherwise `float(s.split(".")[0])` is looked up in
the chapter table ("unknown" when the cast raises, "other" when no range
matches). -/
def icd_to_chapter : PyVal → String
  | .str icd =>
    let s := pyStrip icd
    if s = "?" ∨ s = "" then "unknown"
    else
      match s.data with
      | [] => "unknown"
      | c :: _ =>
        if c = 'V' ∨ c = 'v' then "supplemental_v"
        else if c = 'E' ∨ c = 'e' then "supplemental_e"
        else
          match pyFloat (s.data.takeWhile (fun ch => ¬ ch = '.')) with
          | some x => chapterLookup x
          | none => "unknown"
  | _ => "unknown"

/-- `clean_special_strings` from src/src/utils.py: NA stays NA; a string
is stripped, the sentinels "?", "NULL", "Not Available" become NA,
case-variants of "none"/"no" become `x.capitalize()` resp. "No", any
other string is returned stripped; non-string non-NA values pass
through. -/
def clean_special_strings : PyVal → PyVal
  | .nan => .nan
  | .str s0 =>
    let x := pyStrip s0
    if x = "?" ∨ x = "NULL" ∨ x = "Not Available" then .nan
    else if pyLower x = "none" then .str (pyCapitalize x)
    else if pyLower x = "no" then .str "No"
    else .str x
  | v => v

/-- `map_readmitted` from src/src/utils.py: 1 exactly for a string that
strips and upper-cases to "<30", 0 for everything else. -/
def map_readmitted : PyVal → Int
  | .str label => if pyUpper (pyStrip label) = "<30" then 1 else 0
  | _ => 0

/-! ## src/src/data_preprocessing.py

A pandas frame is modelled column-major: a row count and a list of named
columns. Every operation `enrich_and_clean` performs is column-wise, and
pandas keeps the row index even when all columns are dropped, so the row
count is carried explicitly; a frame is well formed when every column has
exactly that many cells. Name lookups (`c in df`, `df[c]`) use the first
column with the name, as in a frame read from CSV (where names are
unique). -/

structure DataFrame where
  nrows : Nat
  cols : List (String × List PyVal)
deriving DecidableEq

namespace DataFrame

/-- `df[c] = df[c].apply(f)` for every column at once: apply `f` to every
cell. -/
def mapCells (df : DataFrame) (f : PyVal → PyVal) : DataFrame :=
  ⟨df.nrows, df.cols.map (fun p => (p.1, p.2.map f))⟩

/-- `c in df`. -/
def hasCol (df : DataFrame) (c : String) : Bool :=
  df.cols.any (fun p => p.1 == c)

/-- `df[c]`, when present. -/
def getCol? (df : DataFrame) (c : String) : Option (List PyVal) :=
  (df.cols.find? (fun p => p.1 == c)).map (fun p => p.2)

/-- `df[c] = vals`: replace the column in place when the name exists,
append it at the end otherwise (pandas column-assignment semantics). -/
def setColAux (c : String) (vals : List PyVal) :
    List (String × List PyVal) → List (String × List PyVal)
  | [] => [(c, vals)]
  | p :: t => if p.1 = c then (c, vals) :: t else p :: setColAux c vals t

def setCol (df : DataFrame) (c : String) (vals : List PyVal) : DataFrame :=
  ⟨df.nrows, setColAux c vals df.cols⟩

/-- `if src in df: df[dst] = df[src].apply(f)`. -/
def applyCol (df : DataFrame) (src dst : String) (f : PyVal → PyVal) :
    DataFrame :=
  match df.getCol? src with
  | none => df
  | some col => df.setCol dst (col.map f)

/-- `df.drop(columns=c)` (the source guards it with `if c in df`, which a
filter makes redundant: dropping an absent name is the identity). -/
def dropCol (df : DataFrame) (c : String) : DataFrame :=
  ⟨df.nrows, df.cols.filter (fun p => !(p.1 == c))⟩

/-- All map-table descriptions matching a key value. -/
def lookupAll (pairs : List (PyVal × PyVal)) (k : PyVal) : List PyVal :=
  (pairs.filter (fun p => p.1 == k)).map (fun p => p.2)

def renameCol (cols : List (String × List PyVal)) (a b : String) :
    List (String × List PyVal) :=
  cols.map (fun p => if p.1 = a then (b, p.2) else p)

/-- `df.merge(map.rename(columns={"description": descName}), how="left",
on=key)`. Each left row is repeated once per matching map row (once with
a null description when nothing matches); when the left frame already
has a column named `descName`, pandas disambiguates the overlapping
name, suffixing the left copy with "_x" and the right copy with "_y". -/
def leftMerge (df : DataFrame) (pairs : List (PyVal × PyVal))
    (key descName : String) : DataFrame :=
  match df.getCol? key with
  | none => df
  | some keyCol =>
    let matchess := keyCol.map (fun k => lookupAll pairs k)
    let counts := matchess.map (fun ms => max ms.length 1)
    let descVals := matchess.flatMap (fun ms => if ms.isEmpty then [PyVal.nan] else ms)
    let newCols := df.cols.map
      (fun p => (p.1, (p.2.zip counts).flatMap (fun vc => List.replicate vc.2 vc.1)))
    let n := counts.sum
    if df.hasCol descName then
      ⟨n, renameCol newCols descName (descName ++ "_x") ++
          [(descName ++ "_y", descVals)]⟩
    else
      ⟨n, newCols ++ [(descName, descVals)]⟩

end DataFrame

/-- The value stored by `df[f"{dcol}_chapter"] = df[dcol].apply(icd_to_chapter)`. -/
def icdCell (v : PyVal) : PyVal := .str (icd_to_chapter v)

/-- `pd.to_numeric(x, errors="coerce")` on one cell: numbers and NA pass
through, a string is parsed as a float (exact value), anything
unparsable becomes NA. -/
def to_numeric : PyVal → PyVal
  | .num q => .num q
  | .nan => .nan
  | .pinf => .pinf
  | .ninf => .ninf
  | .str s =>
    match pyFloat s.data with
    | some (.finite q) => .num q
    | some .pinf => .pinf
    | some .ninf => .ninf
    | some .nan => .nan
    | none => .nan

/-- The `numeric_like` list from src/src/data_preprocessing.py. -/
def numeric_like : List String :=
  ["time_in_hospital", "num_lab_procedures", "num_procedures",
   "num_medications", "number_outpatient", "number_emergency",
   "number_inpatient", "number_diagnoses", "weight"]

/-- The `drop_cols` list from src/src/data_preprocessing.py. -/
def drop_cols : List String :=
  ["encounter_id", "patient_nbr", "payer_code", "medical_specialty",
   "age", "diag_1", "diag_2", "diag_3"]

/-- One optional-merge step of `enrich_and_clean`:
`if m is not None and key in df: df = df.merge(...)`. -/
def mergeStep (df : DataFrame) (m : Option (List (PyVal × PyVal)))
    (key descName : String) : DataFrame :=
  match m with
  | none => df
  | some pairs =>
    if df.hasCol key then df.leftMerge pairs key descName else df

/-- `enrich_and_clean` from src/src/data_preprocessing.py, step for step:
clean every cell, the three optional id-to-description left joins, the
age midpoint column, the three ICD chapter columns, numeric coercion of
the `numeric_like` columns, and the drop of id/leak-prone columns. The
source first copies its input (`df = df.copy()`), so the caller's frame
is never mutated; in the pure embedding this is inherent. -/
def enrich_and_clean (df : DataFrame)
    (adm_type_map disch_map adm_src_map : Option (List (PyVal × PyVal))) :
    DataFrame :=
  let df1 := df.mapCells clean_special_strings
  let df2 := mergeStep df1 adm_type_map "admission_type_id" "admission_type_desc"
  let df3 := mergeStep df2 disch_map "discharge_disposition_id" "discharge_disposition_desc"
  let df4 := mergeStep df3 adm_src_map "admission_source_id" "admission_source_desc"
  let df5 := df4.applyCol "age" "age_years" age_midpoint
  let df6 := ["diag_1", "diag_2", "diag_3"].foldl
    (fun d c => d.applyCol c (c ++ "_chapter") icdCell) df5
  let df7 := numeric_like.foldl (fun d c => d.applyCol c c to_numeric) df6
  drop_cols.foldl (fun d c => d.dropCol c) df7

/-! ## src/src/train.py -/

/-- The class-imbalance weight computed in `main` of src/src/train.py:
`pos = (y==1).sum(); neg = (y==0).sum(); spw = max(neg / max(pos, 1), 1.0)`
over the post-enrichment binary label column. -/
def scale_pos_weight (labels : List Int) : Rat :=
  let pos : Nat := labels.countP (fun v => v == 1)
  let neg : Nat := labels.countP (fun v => v == 0)
  max ((neg : Rat) / ((max pos 1 : Nat) : Rat)) 1

/-- Modelled from the spec: the fitted preprocessing+classifier pipeline
(sklearn `Pipeline` ending in `XGBClassifier`) is third-party code absent
from src/; per the spec its `predict_proba` returns, for each input row,
a pair of class probabilities, each lying in [0, 1]. The pipeline is
modelled as the per-row pair-producing map, the probability bounds as a
hypothesis on it. -/
def PipelineProba : Type := List PyVal → Rat × Rat

/-- `ReadmissionPyfuncModel.predict` from src/src/train.py (the call
`predict_df` in src/src/inference.py forwards to): probability column 1
of `predict_proba`, one value per input row. -/
def ReadmissionPyfuncModel.predict (pipeline : PipelineProba)
    (rows : List (List PyVal)) : List Rat :=
  rows.map (fun r => (pipeline r).2)

/-! ## Helper lemmas: exact rational values -/

/-- The midpoint as the source writes it: `(a + b) / 2.0`. -/
theorem mkRat_midpoint (a b : Nat) :
    mkRat ((a : Int) + (b : Int)) 2 = ((a : Rat) + (b : Rat)) / 2 := by
  rw [Rat.mkRat_eq_div]
  push_cast
  ring

/-- `sciVal` is the value `sg * (ip + f / 10^nf) * 10^e` it encodes. -/
theorem sciVal_eq (sg : Int) (ip f nf : Nat) (e : Int) :
    sciVal sg ip f nf e =
      (sg : Rat) * ((ip : Rat) + (f : Rat) / (10 : Rat) ^ nf) * (10 : Rat) ^ e := by
  unfold sciVal
  have h10 : ((10 : Rat) ^ nf) ≠ 0 := by positivity
  split
  case isTrue he =>
    have hz : (10 : Rat) ^ e = (10 : Rat) ^ e.toNat := by
      rw [← zpow_natCast]
      congr 1
      omega
    rw [Rat.mkRat_eq_div, hz]
    push_cast
    field_simp
  case isFalse he =>
    have hz : (10 : Rat) ^ e = ((10 : Rat) ^ (-e).toNat)⁻¹ := by
      rw [← zpow_natCast, ← zpow_neg]
      congr 1
      omega
    have h10b : ((10 : Rat) ^ (-e).toNat) ≠ 0 := by positivity
    rw [Rat.mkRat_eq_div, hz]
    push_cast
    field_simp

/-! ## Helper lemmas: ASCII case functions -/

theorem upperChar_lowerChar (c : Char) : upperChar (lowerChar c) = upperChar c := by
  rw [lowerChar.eq_def]
  split <;> rfl

theorem lowerChar_lowerChar (c : Char) : lowerChar (lowerChar c) = lowerChar c := by
  nth_rewrite 2 [lowerChar.eq_def]
  split <;> rfl

/-- `x.capitalize()` is the literal "None" whenever `x.lower()` is "none". -/
theorem capitalize_of_lower_none (x : String) (h : pyLower x = "none") :
    pyCapitalize x = "None" := by
  have hd : x.data.map lowerChar = ['n', 'o', 'n', 'e'] := by
    have := congrArg String.data h
    simpa [pyLower] using this
  match hx : x.data, hd with
  | c :: t, _ =>
    rw [hx] at hd
    simp only [List.map_cons, List.cons.injEq] at hd
    have hc : upperChar c = 'N' := by
      have := upperChar_lowerChar c
      rw [hd.1] at this
      exact this.symm
    simp [pyCapitalize, hx, hc, hd.2]

/-! ## Helper lemmas: takeWhile/dropWhile/rstrip -/

theorem takeWhile_all_append {α : Type} (p : α → Bool) (xs ys : List α)
    (h : ∀ x ∈ xs, p x = true) :
    (xs ++ ys).takeWhile p = xs ++ ys.takeWhile p := by
  induction xs with
  | nil => simp
  | cons a t ih =>
    have ha := h a (by simp)
    simp only [List.cons_append, List.takeWhile_cons, ha, if_true, List.cons.injEq,
      true_and]
    exact ih (fun x hx => h x (by simp [hx]))

theorem dropWhile_all_append {α : Type} (p : α → Bool) (xs ys : List α)
    (h : ∀ x ∈ xs, p x = true) :
    (xs ++ ys).dropWhile p = ys.dropWhile p := by
  induction xs with
  | nil => simp
  | cons a t ih =>
    have ha := h a (by simp)
    simp only [List.cons_append, List.dropWhile_cons, ha, if_true]
    exact ih (fun x hx => h x (by simp [hx]))

theorem rstripL_append (xs ys : List Char) :
    rstripL (xs ++ ys) =
      if rstripL ys = [] then rstripL xs else xs ++ rstripL ys := by
  induction xs with
  | nil =>
    by_cases h : rstripL ys = [] <;> simp [h, rstripL]
  | cons c t ih =>
    rw [List.cons_append, rstripL, ih]
    by_cases h : rstripL ys = []
    · rw [if_pos h, if_pos h, rstripL]
    · rw [if_neg h, if_neg h]
      have hne : t ++ rstripL ys ≠ [] := by
        cases t <;> simp [h]
      obtain ⟨a, r, hq⟩ : ∃ a r, t ++ rstripL ys = a :: r := by
        cases hq : t ++ rstripL ys with
        | nil => exact absurd hq hne
        | cons a r => exact ⟨a, r, rfl⟩
      rw [List.cons_append, hq]

/-- Trailing strip stays behind the last non-whitespace character. -/
theorem rstripL_append_nonspace (xs : List Char) (c : Char)
    (hc : isPySpace c = false) (ys : List Char) :
    rstripL (xs ++ c :: ys) = xs ++ c :: rstripL ys := by
  have h1 : rstripL [c] = [c] := by
    simp [rstripL, hc]
  have h2 : rstripL (xs ++ [c]) = xs ++ [c] := by
    rw [rstripL_append, h1]
    simp
  have h3 : xs ++ c :: ys = (xs ++ [c]) ++ ys := by
    simp
  rw [h3, rstripL_append, h2]
  by_cases h : rstripL ys = []
  · simp [h]
  · simp [h]

/-- The full bucket pattern through strip and regex: leading char is not
whitespace, the trailing strip stays inside the free tail, and the
anchored regex reads off the two digit groups. -/
theorem stripL_of_lbracket (l : List Char) :
    stripL ('[' :: l) = rstripL ('[' :: l) := by
  simp [stripL, List.dropWhile_cons, isPySpace]

theorem parseAgeBucket_pattern (a1 : Char) (t1 : List Char) (a2 : Char)
    (t2 tail : List Char)
    (hd1 : ∀ c ∈ a1 :: t1, c.isDigit = true)
    (hd2 : ∀ c ∈ a2 :: t2, c.isDigit = true) :
    parseAgeBucket ('[' :: ((a1 :: t1) ++ '-' :: ((a2 :: t2) ++ ')' :: tail))) =
      some (digitsVal (a1 :: t1), digitsVal (a2 :: t2)) := by
  have hdash : ('-' : Char).isDigit = false := by decide
  have hrp : (')' : Char).isDigit = false := by decide
  have e1 : ((a1 :: t1) ++ '-' :: ((a2 :: t2) ++ ')' :: tail)).takeWhile Char.isDigit
      = a1 :: t1 := by
    rw [takeWhile_all_append _ _ _ hd1]
    simp [List.takeWhile_cons, hdash]
  have e2 : ((a1 :: t1) ++ '-' :: ((a2 :: t2) ++ ')' :: tail)).dropWhile Char.isDigit
      = '-' :: ((a2 :: t2) ++ ')' :: tail) := by
    rw [dropWhile_all_append _ _ _ hd1]
    simp [List.dropWhile_cons, hdash]
  have e3 : ((a2 :: t2) ++ ')' :: tail).takeWhile Char.isDigit = a2 :: t2 := by
    rw [takeWhile_all_append _ _ _ hd2]
    simp [List.takeWhile_cons, hrp]
  have e4 : ((a2 :: t2) ++ ')' :: tail).dropWhile Char.isDigit = ')' :: tail := by
    rw [dropWhile_all_append _ _ _ hd2]
    simp [List.dropWhile_cons, hrp]
  simp only [parseAgeBucket, e1, e2, e3, e4]

/-- Evaluation of `age_midpoint` on a bucket string with an arbitrary
tail after the closing parenthesis. -/
theorem age_midpoint_pattern (a1 : Char) (t1 : List Char) (a2 : Char)
    (t2 tail : List Char)
    (hd1 : ∀ c ∈ a1 :: t1, c.isDigit = true)
    (hd2 : ∀ c ∈ a2 :: t2, c.isDigit = true) :
    age_midpoint (.str ⟨'[' :: ((a1 :: t1) ++ '-' :: ((a2 :: t2) ++ ')' :: tail))⟩) =
      .num (((digitsVal (a1 :: t1) : Rat) + (digitsVal (a2 :: t2) : Rat)) / 2) := by
  have hdata : (pyStrip ⟨'[' :: ((a1 :: t1) ++ '-' :: ((a2 :: t2) ++ ')' :: tail))⟩).data
      = '[' :: ((a1 :: t1) ++ '-' :: ((a2 :: t2) ++ ')' :: rstripL tail)) := by
    show stripL ('[' :: ((a1 :: t1) ++ '-' :: ((a2 :: t2) ++ ')' :: tail))) = _
    rw [stripL_of_lbracket]
    have hsplit : '[' :: ((a1 :: t1) ++ '-' :: ((a2 :: t2) ++ ')' :: tail))
        = ('[' :: ((a1 :: t1) ++ '-' :: (a2 :: t2))) ++ ')' :: tail := by
      simp
    rw [hsplit, rstripL_append_nonspace _ _ (by decide)]
    simp
  simp only [age_midpoint, hdata, parseAgeBucket_pattern a1 t1 a2 t2 _ hd1 hd2]
  rw [mkRat_midpoint]

/-! ## Claim C3: age_midpoint -/

/-- C3: on every string of the exact bucket shape `[lo-hi)` (nonempty
digit runs for lo and hi) the midpoint function returns exactly
`(lo + hi) / 2.0`; on every input whose stripped form does not match the
anchored bucket regex — including every non-string — it returns the
missing marker (it is a total function, so it cannot raise). -/
theorem age_midpoint_spec :
    (∀ ds1 ds2 : List Char, ds1 ≠ [] → ds2 ≠ [] →
      (∀ c ∈ ds1, c.isDigit = true) → (∀ c ∈ ds2, c.isDigit = true) →
      age_midpoint (.str ⟨'[' :: (ds1 ++ '-' :: (ds2 ++ [')']))⟩) =
        .num (((digitsVal ds1 : Rat) + (digitsVal ds2 : Rat)) / 2)) ∧
    (∀ v : PyVal, (∀ s, v = .str s → parseAgeBucket (pyStrip s).data = none) →
      age_midpoint v = .nan) := by
  constructor
  · intro ds1 ds2 h1 h2 hd1 hd2
    match ds1, h1, ds2, h2 with
    | a1 :: t1, _, a2 :: t2, _ =>
      exact age_midpoint_pattern a1 t1 a2 t2 [] hd1 hd2
  · intro v h
    cases v with
    | str s =>
      have := h s rfl
      simp [age_midpoint, this]
    | nan => rfl
    | num q => rfl
    | pinf => rfl
    | ninf => rfl

theorem age_midpoint_spec_witness :
    (age_midpoint (.str ⟨'[' :: (['6', '0'] ++ '-' :: (['7', '0'] ++ [')']))⟩) =
      .num (((digitsVal ['6', '0'] : Rat) + (digitsVal ['7', '0'] : Rat)) / 2)) ∧
    age_midpoint (.str "abc") = .nan :=
  ⟨age_midpoint_spec.1 ['6', '0'] ['7', '0'] (by decide) (by decide)
      (by decide) (by decide),
   age_midpoint_spec.2 (.str "abc") (fun s hs => by
      cases hs
      decide)⟩

/-! ## Claim C9: trailing characters after the bucket pattern -/

/-- C9: the bucket regex is applied with `re.match`, anchored at the
start only; arbitrary characters may follow the closing parenthesis and
the midpoint is still computed from the two digit groups. -/
theorem age_midpoint_ignores_trailing (ds1 ds2 tail : List Char)
    (h1 : ds1 ≠ []) (h2 : ds2 ≠ [])
    (hd1 : ∀ c ∈ ds1, c.isDigit = true) (hd2 : ∀ c ∈ ds2, c.isDigit = true) :
    age_midpoint (.str ⟨'[' :: (ds1 ++ '-' :: (ds2 ++ ')' :: tail))⟩) =
      .num (((digitsVal ds1 : Rat) + (digitsVal ds2 : Rat)) / 2) := by
  match ds1, h1, ds2, h2 with
  | a1 :: t1, _, a2 :: t2, _ =>
    exact age_midpoint_pattern a1 t1 a2 t2 tail hd1 hd2

theorem age_midpoint_ignores_trailing_witness :
    age_midpoint (.str ⟨'[' :: (['6', '0'] ++ '-' :: (['7', '0'] ++ ')' :: ['x', 'y']))⟩) =
      .num (((digitsVal ['6', '0'] : Rat) + (digitsVal ['7', '0'] : Rat)) / 2) :=
  age_midpoint_ignores_trailing ['6', '0'] ['7', '0'] ['x', 'y']
    (by decide) (by decide) (by decide) (by decide)

/-! ## Helper lemmas: head characters of parseable strings -/

theorem char_cases_lower (c : Char) :
    c = lowerChar c ∨ c = upperChar (lowerChar c) := by
  rw [lowerChar.eq_def]
  split
  all_goals first
    | (left; rfl)
    | (right; rfl)

theorem dropWhile_head_not {α : Type} (p : α → Bool) (l : List α) (c : α)
    (h : (l.dropWhile p).head? = some c) : p c = false := by
  induction l with
  | nil => simp at h
  | cons a t ih =>
    rw [List.dropWhile_cons] at h
    by_cases hp : p a = true
    · rw [if_pos hp] at h
      exact ih h
    · rw [if_neg hp] at h
      simp at h
      rw [← h]
      simpa using hp

theorem rstripL_head? (m : List Char) (c : Char)
    (h : (rstripL m).head? = some c) : m.head? = some c := by
  induction m with
  | nil => simp [rstripL] at h
  | cons a t ih =>
    rw [rstripL] at h
    revert h
    split
    · intro h
      split at h
      · simp at h
      · simp at h
        simp [h]
    · intro h
      simp at h
      simp [h]

theorem stripL_head_not_space (l : List Char) (c : Char)
    (h : (stripL l).head? = some c) : isPySpace c = false :=
  dropWhile_head_not isPySpace l c (rstripL_head? _ _ h)

theorem takeWhile_head? {α : Type} (p : α → Bool) (l : List α) (c : α)
    (h : (l.takeWhile p).head? = some c) :
    l.head? = some c ∧ p c = true := by
  cases l with
  | nil => simp at h
  | cons a t =>
    rw [List.takeWhile_cons] at h
    by_cases hp : p a = true
    · rw [if_pos hp] at h
      simp at h
      subst h
      exact ⟨rfl, hp⟩
    · rw [if_neg hp] at h
      simp at h

theorem parseMantissa_head (c : Char) (cs : List Char)
    (m : (Nat × Nat × Nat) × List Char)
    (h : parseMantissa (c :: cs) = some m) : c = '.' ∨ c.isDigit = true := by
  by_cases hc : c = '.'
  · exact Or.inl hc
  · right
    rw [parseMantissa.eq_def] at h
    split at h
    · simp at h
    · rename_i x r heq
      injection heq with h1 _
      exact absurd h1 hc
    · rename_i x c' cs' hne heq
      injection heq with h1 h2
      subst h1
      by_cases hd : c.isDigit = true
      · exact hd
      · rw [if_neg hd] at h
        exact absurd h (by simp)

/-- A successful `float()` parse pins the first character down to a sign,
a dot, a digit, or the head of inf/nan. -/
theorem pyFloat_some_head (l : List Char) (x : PFloat) (c : Char)
    (hp : pyFloat l = some x) (hc : l.head? = some c) (hns : isPySpace c = false) :
    c = '+' ∨ c = '-' ∨ c = '.' ∨ c.isDigit = true ∨
      c = 'i' ∨ c = 'I' ∨ c = 'n' ∨ c = 'N' := by
  obtain ⟨t, rfl⟩ : ∃ t, l = c :: t := by
    cases l with
    | nil => simp at hc
    | cons a t =>
      simp at hc
      exact ⟨t, by rw [hc]⟩
  have hdw : (c :: t).dropWhile isPySpace = c :: t := by
    rw [List.dropWhile_cons, hns]
    simp
  unfold pyFloat at hp
  rw [show stripL (c :: t) = rstripL (c :: t) from by rw [stripL, hdw]] at hp
  cases hr : (rstripL (c :: t)).head? with
  | none =>
    have hnil : rstripL (c :: t) = [] := by
      cases hq : rstripL (c :: t) with
      | nil => rfl
      | cons a r => rw [hq] at hr; simp at hr
    rw [hnil] at hp
    simp [parseSign, parseMantissa] at hp
  | some c0 =>
    have hc0 : c0 = c := by
      have := rstripL_head? (c :: t) c0 hr
      simpa using this.symm
    subst hc0
    obtain ⟨r, hrl⟩ : ∃ r, rstripL (c0 :: t) = c0 :: r := by
      cases hq : rstripL (c0 :: t) with
      | nil => rw [hq] at hr; simp at hr
      | cons a r =>
        rw [hq] at hr
        simp at hr
        exact ⟨r, by rw [hr]⟩
    rw [hrl] at hp
    by_cases h1 : c0 = '+'
    · exact Or.inl h1
    by_cases h2 : c0 = '-'
    · exact Or.inr (Or.inl h2)
    have hsign : parseSign (c0 :: r) = (1, c0 :: r) := by
      rw [parseSign.eq_def]
      split <;> simp_all
    simp only [hsign] at hp
    by_cases hinf : (c0 :: r).map lowerChar = ['i', 'n', 'f'] ∨
        (c0 :: r).map lowerChar = ['i', 'n', 'f', 'i', 'n', 'i', 't', 'y']
    · have hlow : lowerChar c0 = 'i' := by
        rcases hinf with h' | h' <;> simpa using congrArg List.head? h'
      rcases char_cases_lower c0 with hcc | hcc <;> rw [hlow] at hcc
      · exact Or.inr (Or.inr (Or.inr (Or.inr (Or.inl hcc))))
      · exact Or.inr (Or.inr (Or.inr (Or.inr (Or.inr (Or.inl hcc)))))
    by_cases hnan : (c0 :: r).map lowerChar = ['n', 'a', 'n']
    · have hlow : lowerChar c0 = 'n' := by simpa using congrArg List.head? hnan
      rcases char_cases_lower c0 with hcc | hcc <;> rw [hlow] at hcc
      · exact Or.inr (Or.inr (Or.inr (Or.inr (Or.inr (Or.inr (Or.inl hcc))))))
      · exact Or.inr (Or.inr (Or.inr (Or.inr (Or.inr (Or.inr (Or.inr hcc))))))
    rw [if_neg hinf, if_neg hnan] at hp
    revert hp
    cases hm : parseMantissa (c0 :: r) with
    | none => intro hp; exact absurd hp (by simp)
    | some m =>
      intro _
      rcases parseMantissa_head c0 r m hm with h' | h'
      · exact Or.inr (Or.inr (Or.inl h'))
      · exact Or.inr (Or.inr (Or.inr (Or.inl h')))

/-! ## Helper lemmas: evaluating icd_to_chapter -/

theorem strip_ne_qmark_empty (s : String) (c : Char) (rest : List Char)
    (hd : (pyStrip s).data = c :: rest) (hc : c ≠ '?') :
    ¬(pyStrip s = "?" ∨ pyStrip s = "") := by
  rintro (h | h) <;> rw [h] at hd
  · have hq : ("?" : String).data = ['?'] := rfl
    rw [hq] at hd
    injection hd with h1 _
    exact hc h1.symm
  · have hq : ("" : String).data = [] := rfl
    rw [hq] at hd
    exact List.noConfusion hd

theorem icd_eval_cons (s : String) (c : Char) (rest : List Char)
    (hd : (pyStrip s).data = c :: rest)
    (hne : ¬(pyStrip s = "?" ∨ pyStrip s = "")) :
    icd_to_chapter (.str s) =
      (if c = 'V' ∨ c = 'v' then "supplemental_v"
       else if c = 'E' ∨ c = 'e' then "supplemental_e"
       else
         match pyFloat ((c :: rest).takeWhile (fun ch => ¬ ch = '.')) with
         | some x => chapterLookup x
         | none => "unknown") := by
  simp only [icd_to_chapter, if_neg hne, hd]

theorem find?_first_range (q : Rat) :
    ∀ L : List (String × Int × Int),
      L.Pairwise (fun e e' => e.2.2 < e'.2.1) →
      ∀ name lo hi, (name, lo, hi) ∈ L → (lo : Rat) ≤ q → q ≤ (hi : Rat) →
      L.find? (fun e => inChapterRange e.2.1 e.2.2 (.finite q)) =
        some (name, lo, hi) := by
  intro L
  induction L with
  | nil =>
    intro _ name lo hi hm
    simp at hm
  | cons e0 rest ih =>
    intro hpw name lo hi hm h1 h2
    rw [List.pairwise_cons] at hpw
    rcases List.mem_cons.mp hm with he | he
    · have hp0 : inChapterRange lo hi (.finite q) = true := by
        simp [inChapterRange, h1, h2]
      simp only [List.find?_cons, ← he, hp0]
    · have hlt : e0.2.2 < lo := hpw.1 _ he
      have hp0 : inChapterRange e0.2.1 e0.2.2 (.finite q) = false := by
        simp only [inChapterRange, Bool.and_eq_false_iff, decide_eq_false_iff_not,
          not_le]
      -- q sits above e0's upper bound, so e0's range test fails
        right
        have hcast : (e0.2.2 : Rat) < (lo : Rat) := by exact_mod_cast hlt
        linarith
      simp only [List.find?_cons, hp0]
      exact ih hpw.2 name lo hi he h1 h2

theorem chapterLookup_of_mem (name : String) (lo hi : Int) (q : Rat)
    (hm : (name, lo, hi) ∈ ICD_CHAPTERS)
    (h1 : (lo : Rat) ≤ q) (h2 : q ≤ (hi : Rat)) :
    chapterLookup (.finite q) = name := by
  have hpw : ICD_CHAPTERS.Pairwise (fun e e' => e.2.2 < e'.2.1) := by decide
  simp only [chapterLookup]
  rw [find?_first_range q ICD_CHAPTERS hpw name lo hi hm h1 h2]

/-! ## Claim C1: icd_to_chapter -/

/-- C1: after stripping, a leading V/v yields "supplemental_v" and a
leading E/e "supplemental_e"; when the segment before the first decimal
point parses as a finite number inside one of the table's ranges the
chapter of that range is returned (so "250.03" gives endocrine_metabolic
and "999" injury); blank, "?", non-string or unparsable input gives
"unknown"; a parsed value inside no range (such as "9999") gives
"other". -/
theorem icd_to_chapter_spec :
    (∀ s : String,
      ((pyStrip s).data.head? = some 'V' ∨ (pyStrip s).data.head? = some 'v') →
      icd_to_chapter (.str s) = "supplemental_v") ∧
    (∀ s : String,
      ((pyStrip s).data.head? = some 'E' ∨ (pyStrip s).data.head? = some 'e') →
      icd_to_chapter (.str s) = "supplemental_e") ∧
    (∀ (s name : String) (q : Rat) (lo hi : Int),
      pyFloat ((pyStrip s).data.takeWhile (fun ch => ¬ ch = '.')) =
        some (.finite q) →
      (name, lo, hi) ∈ ICD_CHAPTERS → (lo : Rat) ≤ q → q ≤ (hi : Rat) →
      icd_to_chapter (.str s) = name) ∧
    (∀ (s : String) (x : PFloat),
      pyFloat ((pyStrip s).data.takeWhile (fun ch => ¬ ch = '.')) = some x →
      (∀ e ∈ ICD_CHAPTERS, inChapterRange e.2.1 e.2.2 x = false) →
      icd_to_chapter (.str s) = "other") ∧
    (∀ (s : String) (c : Char),
      (pyStrip s).data.head? = some c →
      ¬(c = 'V' ∨ c = 'v') → ¬(c = 'E' ∨ c = 'e') →
      pyFloat ((pyStrip s).data.takeWhile (fun ch => ¬ ch = '.')) = none →
      icd_to_chapter (.str s) = "unknown") ∧
    (∀ s : String, (pyStrip s).data.head? = none →
      icd_to_chapter (.str s) = "unknown") ∧
    icd_to_chapter .nan = "unknown" ∧
    (∀ q : Rat, icd_to_chapter (.num q) = "unknown") ∧
    icd_to_chapter .pinf = "unknown" ∧
    icd_to_chapter .ninf = "unknown" ∧
    icd_to_chapter (.str "250.03") = "endocrine_metabolic" ∧
    icd_to_chapter (.str "999") = "injury" ∧
    icd_to_chapter (.str "?") = "unknown" ∧
    icd_to_chapter (.str "") = "unknown" ∧
    icd_to_chapter (.str "  ") = "unknown" ∧
    icd_to_chapter (.str "9999") = "other" := by
  have hVe : ∀ (s : String) (c : Char) (rest : List Char),
      (pyStrip s).data = c :: rest → (c = 'V' ∨ c = 'v') →
      icd_to_chapter (.str s) = "supplemental_v" := by
    intro s c rest hd hcv
    have hq : c ≠ '?' := by rcases hcv with rfl | rfl <;> decide
    rw [icd_eval_cons s c rest hd (strip_ne_qmark_empty s c rest hd hq),
      if_pos hcv]
  have hEe : ∀ (s : String) (c : Char) (rest : List Char),
      (pyStrip s).data = c :: rest → (c = 'E' ∨ c = 'e') →
      icd_to_chapter (.str s) = "supplemental_e" := by
    intro s c rest hd hce
    have hq : c ≠ '?' := by rcases hce with rfl | rfl <;> decide
    have hv : ¬(c = 'V' ∨ c = 'v') := by rcases hce with rfl | rfl <;> decide
    rw [icd_eval_cons s c rest hd (strip_ne_qmark_empty s c rest hd hq),
      if_neg hv, if_pos hce]
  have hcons : ∀ s : String,
      ∀ x : PFloat,
      pyFloat ((pyStrip s).data.takeWhile (fun ch => ¬ ch = '.')) = some x →
      ∃ c rest, (pyStrip s).data = c :: rest ∧
        ¬(c = 'V' ∨ c = 'v') ∧ ¬(c = 'E' ∨ c = 'e') ∧ c ≠ '?' := by
    intro s x hparse
    cases hql : (pyStrip s).data.takeWhile (fun ch => ¬ ch = '.') with
    | nil =>
      rw [hql] at hparse
      have : pyFloat [] = none := rfl
      rw [this] at hparse
      exact Option.noConfusion hparse
    | cons c lr =>
      have hhead := takeWhile_head? (fun ch => ¬ ch = '.')
        (pyStrip s).data c (by rw [hql]; rfl)
      obtain ⟨rest, hd⟩ : ∃ rest, (pyStrip s).data = c :: rest := by
        cases hq2 : (pyStrip s).data with
        | nil => rw [hq2] at hhead; simp at hhead
        | cons a r =>
          rw [hq2] at hhead
          simp at hhead
          exact ⟨r, by rw [hhead.1]⟩
      have hns : isPySpace c = false := by
        have : (stripL s.data).head? = some c := by
          show ((pyStrip s).data).head? = some c
          rw [hd]
          rfl
        exact stripL_head_not_space s.data c this
      have hdot : c ≠ '.' := by simpa using hhead.2
      have hf := pyFloat_some_head _ x c hparse (by rw [hql]; rfl) hns
      refine ⟨c, rest, hd, ?_, ?_, ?_⟩ <;>
        rcases hf with rfl | rfl | h' | h' | rfl | rfl | rfl | rfl <;>
          first
            | decide
            | exact absurd h' hdot
            | (rintro (rfl | rfl) <;> exact absurd h' (by decide))
  refine ⟨?_, ?_, ?_, ?_, ?_, ?_, rfl, fun q => rfl, rfl, rfl,
    by decide, by decide, by decide, by decide, by decide, by decide⟩
  · intro s h
    rcases h with h | h <;>
    · cases hq2 : (pyStrip s).data with
      | nil => rw [hq2] at h; simp at h
      | cons a r =>
        rw [hq2] at h
        simp at h
        subst h
        exact hVe s _ r hq2 (by simp)
  · intro s h
    rcases h with h | h <;>
    · cases hq2 : (pyStrip s).data with
      | nil => rw [hq2] at h; simp at h
      | cons a r =>
        rw [hq2] at h
        simp at h
        subst h
        exact hEe s _ r hq2 (by simp)
  · intro s name q lo hi hparse hm h1 h2
    obtain ⟨c, rest, hd, hv, he, hq⟩ := hcons s (.finite q) hparse
    rw [hd] at hparse
    rw [icd_eval_cons s c rest hd (strip_ne_qmark_empty s c rest hd hq),
      if_neg hv, if_neg he, hparse]
    exact chapterLookup_of_mem name lo hi q hm h1 h2
  · intro s x hparse hall
    obtain ⟨c, rest, hd, hv, he, hq⟩ := hcons s x hparse
    rw [hd] at hparse
    rw [icd_eval_cons s c rest hd (strip_ne_qmark_empty s c rest hd hq),
      if_neg hv, if_neg he, hparse]
    simp only [chapterLookup]
    rw [List.find?_eq_none.mpr (fun e he' => by simp [hall e he'])]
  · intro s c hh hv he hparse
    by_cases hqe : pyStrip s = "?" ∨ pyStrip s = ""
    · simp only [icd_to_chapter, if_pos hqe]
    · obtain ⟨rest, hd⟩ : ∃ rest, (pyStrip s).data = c :: rest := by
        cases hq2 : (pyStrip s).data with
        | nil => rw [hq2] at hh; simp at hh
        | cons a r =>
          rw [hq2] at hh
          simp at hh
          exact ⟨r, by rw [hh]⟩
      rw [hd] at hparse
      rw [icd_eval_cons s c rest hd hqe, if_neg hv, if_neg he, hparse]
  · intro s hh
    have hdat : (pyStrip s).data = [] := by
      cases hq2 : (pyStrip s).data with
      | nil => rfl
      | cons a r => rw [hq2] at hh; simp at hh
    have : pyStrip s = "" := by
      have := congrArg String.mk hdat
      exact this
    simp only [icd_to_chapter, if_pos (Or.inr this)]

theorem icd_to_chapter_spec_witness :
    ((pyStrip "V27").data.head? = some 'V' ∨ (pyStrip "V27").data.head? = some 'v') ∧
    icd_to_chapter (.str "V27") = "supplemental_v" ∧
    ((pyStrip " e9 ").data.head? = some 'E' ∨ (pyStrip " e9 ").data.head? = some 'e') ∧
    icd_to_chapter (.str " e9 ") = "supplemental_e" ∧
    pyFloat ((pyStrip "250.03").data.takeWhile (fun ch => ¬ ch = '.')) =
      some (.finite 250) ∧
    icd_to_chapter (.str "250.03") = "endocrine_metabolic" ∧
    pyFloat ((pyStrip "abc").data.takeWhile (fun ch => ¬ ch = '.')) = none ∧
    icd_to_chapter (.str "abc") = "unknown" ∧
    icd_to_chapter (.str "9999") = "other" ∧
    icd_to_chapter (.str "   ") = "unknown" :=
  ⟨by decide,
   icd_to_chapter_spec.1 "V27" (by decide),
   by decide,
   icd_to_chapter_spec.2.1 " e9 " (by decide),
   by decide,
   icd_to_chapter_spec.2.2.1 "250.03" "endocrine_metabolic" 250 240 279
     (by decide) (by decide) (by decide) (by decide),
   by decide,
   icd_to_chapter_spec.2.2.2.2.1 "abc" 'a' (by decide) (by decide) (by decide)
     (by decide),
   icd_to_chapter_spec.2.2.2.1 "9999" (.finite 9999) (by decide) (by decide),
   icd_to_chapter_spec.2.2.2.2.2.1 "   " (by decide)⟩

/-! ## Claim C4: clean_special_strings -/

/-- C4 (counterexample): the claim says blank input is mapped to the
missing marker, but the empty string is not in the sentinel set and is
not NA, so `clean_special_strings` returns it unchanged (a whitespace
string equally strips to the empty string, not to NA). -/
theorem clean_blank_not_missing :
    clean_special_strings (.str "") = .str "" ∧
    clean_special_strings (.str " ") = .str "" ∧
    PyVal.str "" ≠ PyVal.nan := by
  decide

/-- C4 (amended): NA stays the missing marker; strings stripping to the
sentinels "?", "NULL", "Not Available" become the missing marker; any
case variant of "none" becomes the literal "None" and of "no" the
literal "No"; numbers pass through; the empty (blank) string is returned
unchanged rather than becoming missing. The function is a total Lean
function, hence deterministic and side-effect free. -/
theorem clean_special_strings_spec :
    clean_special_strings .nan = .nan ∧
    (∀ s : String,
      (pyStrip s = "?" ∨ pyStrip s = "NULL" ∨ pyStrip s = "Not Available") →
      clean_special_strings (.str s) = .nan) ∧
    (∀ s : String, pyLower (pyStrip s) = "none" →
      clean_special_strings (.str s) = .str "None") ∧
    (∀ s : String, pyLower (pyStrip s) = "no" →
      clean_special_strings (.str s) = .str "No") ∧
    (∀ q : Rat, clean_special_strings (.num q) = .num q) := by
  refine ⟨rfl, ?_, ?_, ?_, fun q => rfl⟩
  · intro s h
    simp only [clean_special_strings]
    rw [if_pos h]
  · intro s h
    have hsent : ¬(pyStrip s = "?" ∨ pyStrip s = "NULL" ∨ pyStrip s = "Not Available") := by
      rintro (h' | h' | h') <;> rw [h'] at h <;> exact absurd h (by decide)
    simp only [clean_special_strings]
    rw [if_neg hsent, if_pos h]
    exact congrArg PyVal.str (capitalize_of_lower_none _ h)
  · intro s h
    have hsent : ¬(pyStrip s = "?" ∨ pyStrip s = "NULL" ∨ pyStrip s = "Not Available") := by
      rintro (h' | h' | h') <;> rw [h'] at h <;> exact absurd h (by decide)
    have hnone : ¬ pyLower (pyStrip s) = "none" := by
      rw [h]; decide
    simp only [clean_special_strings]
    rw [if_neg hsent, if_neg hnone, if_pos h]

theorem clean_special_strings_spec_witness :
    (pyStrip " ? " = "?" ∨ pyStrip " ? " = "NULL" ∨ pyStrip " ? " = "Not Available") ∧
    clean_special_strings (.str " ? ") = .nan ∧
    pyLower (pyStrip "nOnE") = "none" ∧
    clean_special_strings (.str "nOnE") = .str "None" ∧
    pyLower (pyStrip " NO ") = "no" ∧
    clean_special_strings (.str " NO ") = .str "No" :=
  ⟨by decide, clean_special_strings_spec.2.1 " ? " (by decide),
   by decide, clean_special_strings_spec.2.2.1 "nOnE" (by decide),
   by decide, clean_special_strings_spec.2.2.2.1 " NO " (by decide)⟩

/-! ## Claim C6: map_readmitted -/

/-- C6: `map_readmitted` returns 1 exactly when its input is a string
whose stripped upper-cased form is "<30", and 0 for every other input,
in particular ">30", "NO" and every non-string. -/
theorem map_readmitted_spec :
    (∀ v, map_readmitted v = 0 ∨ map_readmitted v = 1) ∧
    (∀ s : String, map_readmitted (.str s) = 1 ↔ pyUpper (pyStrip s) = "<30") ∧
    map_readmitted (.str "<30") = 1 ∧
    map_readmitted (.str ">30") = 0 ∧
    map_readmitted (.str "NO") = 0 ∧
    map_readmitted .nan = 0 ∧
    (∀ q : Rat, map_readmitted (.num q) = 0) ∧
    map_readmitted .pinf = 0 ∧
    map_readmitted .ninf = 0 := by
  refine ⟨?_, ?_, by decide, by decide, by decide, rfl, fun q => rfl, rfl, rfl⟩
  · intro v
    cases v
    case str s =>
      simp only [map_readmitted]
      split <;> simp
    all_goals (left; rfl)
  · intro s
    simp only [map_readmitted]
    split
    case isTrue h => simp [h]
    case isFalse h => simp [h]

/-! ## Claim C7: the class-imbalance weight -/

/-- C7: whenever the label column has at least one positive row, the
weight handed to the classifier is `max(neg / pos, 1.0)` (the code's
`max(pos, 1)` guard only matters when there is no positive row). -/
theorem scale_pos_weight_spec (labels : List Int)
    (h : 0 < labels.countP (fun v => v == 1)) :
    scale_pos_weight labels =
      max ((labels.countP (fun v => v == 0) : Rat) /
           (labels.countP (fun v => v == 1) : Rat)) 1 := by
  have h1 : max (labels.countP (fun v => v == 1)) 1 = labels.countP (fun v => v == 1) :=
    Nat.max_eq_left h
  simp only [scale_pos_weight, h1]

theorem scale_pos_weight_spec_witness :
    0 < ([1, 0, 0] : List Int).countP (fun v => v == 1) ∧
    scale_pos_weight [1, 0, 0] =
      max ((([1, 0, 0] : List Int).countP (fun v => v == 0) : Rat) /
           (([1, 0, 0] : List Int).countP (fun v => v == 1) : Rat)) 1 :=
  ⟨by decide, scale_pos_weight_spec [1, 0, 0] (by decide)⟩

/-! ## Claim C5: the end-to-end scenario row -/

/-- The raw scenario row of the spec's end-to-end property. -/
def dfScenario : DataFrame :=
  ⟨1, [("age", [.str "[60-70)"]), ("diag_1", [.str "250.03"]),
       ("diag_2", [.str "410"]), ("diag_3", [.str "?"])]⟩

/-- C5: enriching the scenario row yields age_years = 65.0, the three
chapter columns "endocrine_metabolic" / "circulatory" / "unknown", and
none of the raw columns age, diag_1, diag_2, diag_3 remain. -/
theorem enrich_scenario_row :
    (enrich_and_clean dfScenario none none none).getCol? "age_years"
        = some [.num 65] ∧
    (enrich_and_clean dfScenario none none none).getCol? "diag_1_chapter"
        = some [.str "endocrine_metabolic"] ∧
    (enrich_and_clean dfScenario none none none).getCol? "diag_2_chapter"
        = some [.str "circulatory"] ∧
    (enrich_and_clean dfScenario none none none).getCol? "diag_3_chapter"
        = some [.str "unknown"] ∧
    (enrich_and_clean dfScenario none none none).hasCol "age" = false ∧
    (enrich_and_clean dfScenario none none none).hasCol "diag_1" = false ∧
    (enrich_and_clean dfScenario none none none).hasCol "diag_2" = false ∧
    (enrich_and_clean dfScenario none none none).hasCol "diag_3" = false := by
  decide

/-! ## Claim C2, counterexample part -/

/-- A frame that still carries its admission_type_id column, and a
nonempty admission-type lookup table. -/
def dfMergeEx : DataFrame := ⟨1, [("admission_type_id", [.num 1])]⟩

def admTypeMapEx : List (PyVal × PyVal) := [(.num 1, .str "Emergency")]

/-- C2 (counterexample): with a lookup table supplied, the second pass
merges again — the id column was never dropped and the description
column from the first pass collides, so pandas renames it with the
"_x"/"_y" suffixes and the frames differ. Idempotence fails for this
fixed choice of lookup tables. -/
theorem enrich_twice_ne_once_with_map :
    enrich_and_clean (enrich_and_clean dfMergeEx (some admTypeMapEx) none none)
        (some admTypeMapEx) none none ≠
      enrich_and_clean dfMergeEx (some admTypeMapEx) none none := by
  decide

/-! ## Claim C8: the pyfunc predict contract -/

/-- C8: on any batch, the persisted model's predict returns exactly one
value per input row, each a probability in [0, 1] (the bound is the
spec-modelled contract of the underlying pipeline's predict_proba). -/
theorem pyfunc_predict_spec (pipeline : PipelineProba)
    (hp : ∀ r, 0 ≤ (pipeline r).2 ∧ (pipeline r).2 ≤ 1)
    (rows : List (List PyVal)) :
    (ReadmissionPyfuncModel.predict pipeline rows).length = rows.length ∧
    ∀ q ∈ ReadmissionPyfuncModel.predict pipeline rows, 0 ≤ q ∧ q ≤ 1 := by
  constructor
  · simp [ReadmissionPyfuncModel.predict]
  · intro q hq
    simp only [ReadmissionPyfuncModel.predict, List.mem_map] at hq
    obtain ⟨r, _, rfl⟩ := hq
    exact hp r

theorem pyfunc_predict_spec_witness :
    (ReadmissionPyfuncModel.predict (fun _ => (mkRat 1 2, mkRat 1 2))
        [[PyVal.nan], []]).length = 2 ∧
    ∀ q ∈ ReadmissionPyfuncModel.predict (fun _ => (mkRat 1 2, mkRat 1 2))
        [[PyVal.nan], []], 0 ≤ q ∧ q ≤ 1 :=
 by
  refine pyfunc_predict_spec _ ?_ _
  intro r
  exact ⟨by decide, by decide⟩

/-! ## Claim C10: row-count preservation -/

/-- A frame is well formed when every column holds exactly `nrows`
cells. -/
def WellFormed (df : DataFrame) : Prop :=
  ∀ p ∈ df.cols, p.2.length = df.nrows

theorem setColAux_mem (c : String) (vals : List PyVal)
    (l : List (String × List PyVal)) (p : String × List PyVal)
    (hp : p ∈ DataFrame.setColAux c vals l) : p ∈ l ∨ p = (c, vals) := by
  induction l with
  | nil =>
    simp [DataFrame.setColAux] at hp
    exact Or.inr hp
  | cons a t ih =>
    rw [DataFrame.setColAux] at hp
    by_cases ha : a.1 = c
    · rw [if_pos ha] at hp
      rcases List.mem_cons.mp hp with h | h
      · exact Or.inr h
      · exact Or.inl (List.mem_cons_of_mem _ h)
    · rw [if_neg ha] at hp
      rcases List.mem_cons.mp hp with h | h
      · exact Or.inl (h ▸ List.mem_cons_self _ _)
      · rcases ih h with h' | h'
        · exact Or.inl (List.mem_cons_of_mem _ h')
        · exact Or.inr h'

theorem nrows_mapCells (df : DataFrame) (f : PyVal → PyVal) :
    (df.mapCells f).nrows = df.nrows := rfl

theorem nrows_applyCol (df : DataFrame) (src dst : String) (f : PyVal → PyVal) :
    (df.applyCol src dst f).nrows = df.nrows := by
  unfold DataFrame.applyCol
  cases df.getCol? src <;> rfl

theorem nrows_dropCol (df : DataFrame) (c : String) :
    (df.dropCol c).nrows = df.nrows := rfl

theorem wf_mapCells (df : DataFrame) (f : PyVal → PyVal)
    (h : WellFormed df) : WellFormed (df.mapCells f) := by
  intro p hp
  simp only [DataFrame.mapCells, List.mem_map] at hp
  obtain ⟨p0, hp0, rfl⟩ := hp
  simpa using h p0 hp0

theorem getCol?_length (df : DataFrame) (c : String) (col : List PyVal)
    (h : WellFormed df) (hg : df.getCol? c = some col) :
    col.length = df.nrows := by
  simp only [DataFrame.getCol?, Option.map_eq_some'] at hg
  obtain ⟨p0, hp0, hcol⟩ := hg
  simpa [← hcol] using h p0 (List.mem_of_find?_eq_some hp0)

theorem wf_setCol (df : DataFrame) (c : String) (vals : List PyVal)
    (h : WellFormed df) (hv : vals.length = df.nrows) :
    WellFormed (df.setCol c vals) := by
  intro p hp
  rcases setColAux_mem c vals df.cols p hp with h' | h'
  · exact h p h'
  · rw [h']
    exact hv

theorem wf_applyCol (df : DataFrame) (src dst : String) (f : PyVal → PyVal)
    (h : WellFormed df) : WellFormed (df.applyCol src dst f) := by
  unfold DataFrame.applyCol
  cases hg : df.getCol? src with
  | none => exact h
  | some col =>
    exact wf_setCol df dst (col.map f) h
      (by simpa using getCol?_length df src col h hg)

theorem wf_dropCol (df : DataFrame) (c : String)
    (h : WellFormed df) : WellFormed (df.dropCol c) := by
  intro p hp
  exact h p (List.mem_of_mem_filter hp)

theorem foldl_nrows_wf {β : Type} (step : DataFrame → β → DataFrame)
    (hn : ∀ d b, (step d b).nrows = d.nrows)
    (hw : ∀ d b, WellFormed d → WellFormed (step d b)) :
    ∀ (L : List β) (d : DataFrame),
      (L.foldl step d).nrows = d.nrows ∧
        (WellFormed d → WellFormed (L.foldl step d)) := by
  intro L
  induction L with
  | nil => exact fun d => ⟨rfl, id⟩
  | cons b t ih =>
    intro d
    refine ⟨?_, ?_⟩
    · rw [List.foldl_cons, (ih (step d b)).1, hn]
    · intro hwf
      rw [List.foldl_cons]
      exact (ih (step d b)).2 (hw d b hwf)

/-- C10: with all three lookup tables absent, enrichment preserves the
row count exactly — every step is cell-wise, a same-length column
assignment, or a column drop — and keeps the frame well formed. -/
theorem enrich_preserves_nrows (df : DataFrame) (h : WellFormed df) :
    (enrich_and_clean df none none none).nrows = df.nrows ∧
    WellFormed (enrich_and_clean df none none none) := by
  unfold enrich_and_clean mergeStep
  simp only
  have hdiag := foldl_nrows_wf
    (fun d c => d.applyCol c (c ++ "_chapter") icdCell)
    (fun d c => nrows_applyCol d c (c ++ "_chapter") icdCell)
    (fun d c => wf_applyCol d c (c ++ "_chapter") icdCell)
  have hnum := foldl_nrows_wf
    (fun d c => d.applyCol c c to_numeric)
    (fun d c => nrows_applyCol d c c to_numeric)
    (fun d c => wf_applyCol d c c to_numeric)
  have hdrop := foldl_nrows_wf
    (fun d c => d.dropCol c)
    (fun d c => nrows_dropCol d c)
    (fun d c => wf_dropCol d c)
  constructor
  · rw [(hdrop _ _).1, (hnum _ _).1, (hdiag _ _).1,
      nrows_applyCol, nrows_mapCells]
  · exact (hdrop _ _).2 ((hnum _ _).2 ((hdiag _ _).2
      (wf_applyCol _ _ _ _ (wf_mapCells df _ h))))

theorem enrich_preserves_nrows_witness :
    WellFormed dfScenario ∧
    (enrich_and_clean dfScenario none none none).nrows = dfScenario.nrows ∧
    WellFormed (enrich_and_clean dfScenario none none none) := by
  have hwf : WellFormed dfScenario := by
    intro p hp
    fin_cases hp <;> rfl
  exact ⟨hwf, (enrich_preserves_nrows dfScenario hwf).1,
    (enrich_preserves_nrows dfScenario hwf).2⟩

/-! ## Claim C2, idempotence part: cell-level lemmas -/

theorem dropWhile_idem {α : Type} (p : α → Bool) (l : List α) :
    (l.dropWhile p).dropWhile p = l.dropWhile p := by
  induction l with
  | nil => rfl
  | cons c cs ih =>
    rw [List.dropWhile_cons]
    by_cases h : p c = true
    · rw [if_pos h]
      exact ih
    · rw [if_neg h, List.dropWhile_cons, if_neg h]

theorem rstripL_idem (m : List Char) : rstripL (rstripL m) = rstripL m := by
  induction m with
  | nil => rfl
  | cons c cs ih =>
    cases hcs : rstripL cs with
    | nil =>
      by_cases hws : isPySpace c = true
      · have e : rstripL (c :: cs) = [] := by
          rw [rstripL, hcs, if_pos hws]
        rw [e]
        rfl
      · have e : rstripL (c :: cs) = [c] := by
          rw [rstripL, hcs, if_neg hws]
        rw [e]
        simp [rstripL, hws]
    | cons a r =>
      have ih' : rstripL (a :: r) = a :: r := hcs ▸ ih
      have e : rstripL (c :: cs) = c :: a :: r := by
        rw [rstripL, hcs]
      rw [e, rstripL, ih']

theorem stripL_idem (l : List Char) : stripL (stripL l) = stripL l := by
  rw [stripL, stripL]
  have hdw : (rstripL (l.dropWhile isPySpace)).dropWhile isPySpace
      = rstripL (l.dropWhile isPySpace) := by
    cases hr : rstripL (l.dropWhile isPySpace) with
    | nil => rfl
    | cons a r =>
      have ha : isPySpace a = false := by
        have h1 : (rstripL (l.dropWhile isPySpace)).head? = some a := by
          rw [hr]; rfl
        exact dropWhile_head_not isPySpace l a (rstripL_head? _ _ h1)
      rw [List.dropWhile_cons, ha]
      simp
  rw [hdw, rstripL_idem]

theorem pyStrip_idem (s : String) : pyStrip (pyStrip s) = pyStrip s := by
  show (⟨stripL (stripL s.data)⟩ : String) = ⟨stripL s.data⟩
  rw [stripL_idem]

/-- `clean_special_strings` is idempotent. -/
theorem clean_idem (v : PyVal) :
    clean_special_strings (clean_special_strings v) = clean_special_strings v := by
  cases v with
  | str s =>
    by_cases h1 : pyStrip s = "?" ∨ pyStrip s = "NULL" ∨ pyStrip s = "Not Available"
    · have e : clean_special_strings (.str s) = .nan := by
        simp only [clean_special_strings]
        rw [if_pos h1]
      rw [e]
      rfl
    · by_cases h2 : pyLower (pyStrip s) = "none"
      · have e : clean_special_strings (.str s) = .str "None" := by
          simp only [clean_special_strings]
          rw [if_neg h1, if_pos h2, capitalize_of_lower_none _ h2]
        rw [e]
        decide
      · by_cases h3 : pyLower (pyStrip s) = "no"
        · have e : clean_special_strings (.str s) = .str "No" := by
            simp only [clean_special_strings]
            rw [if_neg h1, if_neg h2, if_pos h3]
          rw [e]
          decide
        · have e : clean_special_strings (.str s) = .str (pyStrip s) := by
            simp only [clean_special_strings]
            rw [if_neg h1, if_neg h2, if_neg h3]
          rw [e]
          simp only [clean_special_strings]
          rw [pyStrip_idem s]
          rw [if_neg h1, if_neg h2, if_neg h3]
  | nan => rfl
  | num q => rfl
  | pinf => rfl
  | ninf => rfl

/-- `pd.to_numeric` is idempotent on cells. -/
theorem to_numeric_idem (v : PyVal) : to_numeric (to_numeric v) = to_numeric v := by
  cases v with
  | str s =>
    rw [to_numeric]
    cases h : pyFloat s.data with
    | none => rfl
    | some x => cases x <;> rfl
  | nan => rfl
  | num q => rfl
  | pinf => rfl
  | ninf => rfl

/-- Cells produced by `age_midpoint` are fixed by the token cleaner. -/
theorem clean_midpoint_out (v : PyVal) :
    clean_special_strings (age_midpoint v) = age_midpoint v := by
  cases v with
  | str s =>
    rw [age_midpoint]
    cases parseAgeBucket (pyStrip s).data with
    | none => rfl
    | some ab => rfl
  | nan => rfl
  | num q => rfl
  | pinf => rfl
  | ninf => rfl

/-- The finite vocabulary of `icd_to_chapter`. -/
def chapterStrings : List String :=
  ["unknown", "supplemental_v", "supplemental_e", "other"] ++
    ICD_CHAPTERS.map (fun e => e.1)

theorem icd_to_chapter_mem (v : PyVal) : icd_to_chapter v ∈ chapterStrings := by
  have hunk : ("unknown" : String) ∈ chapterStrings := by decide
  cases v with
  | str s =>
    by_cases h1 : pyStrip s = "?" ∨ pyStrip s = ""
    · have e : icd_to_chapter (.str s) = "unknown" := by
        simp only [icd_to_chapter]
        rw [if_pos h1]
      rw [e]
      exact hunk
    · cases hd : (pyStrip s).data with
      | nil =>
        have hempty : pyStrip s = "" := congrArg String.mk hd
        exact absurd (Or.inr hempty) h1
      | cons c rest =>
        rw [icd_eval_cons s c rest hd h1]
        by_cases h2 : c = 'V' ∨ c = 'v'
        · rw [if_pos h2]
          decide
        rw [if_neg h2]
        by_cases h3 : c = 'E' ∨ c = 'e'
        · rw [if_pos h3]
          decide
        rw [if_neg h3]
        cases hp : pyFloat ((c :: rest).takeWhile (fun ch => ¬ ch = '.')) with
        | none => exact hunk
        | some x =>
          show chapterLookup x ∈ chapterStrings
          simp only [chapterLookup]
          cases hf : ICD_CHAPTERS.find?
              (fun e => inChapterRange e.2.1 e.2.2 x) with
          | none => decide
          | some e =>
            have hmem := List.mem_of_find?_eq_some hf
            simp only [chapterStrings, List.mem_append, List.mem_map]
            exact Or.inr ⟨e, hmem, rfl⟩
  | nan => exact hunk
  | num q => exact hunk
  | pinf => exact hunk
  | ninf => exact hunk

/-- Cells produced by the chapter map are fixed by the token cleaner. -/
theorem clean_icdCell_out (v : PyVal) :
    clean_special_strings (icdCell v) = icdCell v := by
  have hall : ∀ name ∈ chapterStrings,
      clean_special_strings (.str name) = .str name := by decide
  exact hall _ (icd_to_chapter_mem v)

/-- Cells produced by `pd.to_numeric` are fixed by the token cleaner. -/
theorem clean_to_numeric_out (v : PyVal) :
    clean_special_strings (to_numeric v) = to_numeric v := by
  cases v with
  | str s =>
    rw [to_numeric]
    cases h : pyFloat s.data with
    | none => rfl
    | some x => cases x <;> rfl
  | nan => rfl
  | num q => rfl
  | pinf => rfl
  | ninf => rfl

/-! ## Claim C2, idempotence part: frame-level lemmas -/

/-- Every cell of every column satisfies `Q`. -/
def CellProp (Q : PyVal → Prop) (df : DataFrame) : Prop :=
  ∀ p ∈ df.cols, ∀ v ∈ p.2, Q v

theorem list_map_id_of {α : Type} (g : α → α) :
    ∀ l : List α, (∀ x ∈ l, g x = x) → l.map g = l := by
  intro l
  induction l with
  | nil => intro _; rfl
  | cons a t ih =>
    intro h
    rw [List.map_cons, h a (by simp), ih (fun x hx => h x (by simp [hx]))]

theorem mapCells_eq_self (df : DataFrame) (f : PyVal → PyVal)
    (h : CellProp (fun v => f v = v) df) : df.mapCells f = df := by
  show DataFrame.mk df.nrows (df.cols.map (fun p => (p.1, p.2.map f)))
      = DataFrame.mk df.nrows df.cols
  congr 1
  apply list_map_id_of
  intro p hp
  rw [list_map_id_of f p.2 (h p hp)]

theorem cellProp_mapCells (Q : PyVal → Prop) (df : DataFrame)
    (f : PyVal → PyVal) (h : ∀ v, Q (f v)) : CellProp Q (df.mapCells f) := by
  intro p hp v hv
  simp only [DataFrame.mapCells, List.mem_map] at hp
  obtain ⟨p0, _, rfl⟩ := hp
  simp only [List.mem_map] at hv
  obtain ⟨u, _, rfl⟩ := hv
  exact h u

theorem cellProp_setCol (Q : PyVal → Prop) (df : DataFrame) (c : String)
    (vals : List PyVal) (h : CellProp Q df) (hv : ∀ v ∈ vals, Q v) :
    CellProp Q (df.setCol c vals) := by
  intro p hp v hpv
  rcases setColAux_mem c vals df.cols p hp with h' | h'
  · exact h p h' v hpv
  · rw [h'] at hpv
    exact hv v hpv

theorem cellProp_applyCol (Q : PyVal → Prop) (df : DataFrame)
    (src dst : String) (f : PyVal → PyVal) (h : CellProp Q df)
    (hf : ∀ v, Q (f v)) : CellProp Q (df.applyCol src dst f) := by
  unfold DataFrame.applyCol
  cases hg : df.getCol? src with
  | none => exact h
  | some col =>
    apply cellProp_setCol Q df dst (col.map f) h
    intro v hv
    simp only [List.mem_map] at hv
    obtain ⟨u, _, rfl⟩ := hv
    exact hf u

theorem cellProp_dropCol (Q : PyVal → Prop) (df : DataFrame) (c : String)
    (h : CellProp Q df) : CellProp Q (df.dropCol c) := by
  intro p hp v hpv
  exact h p (List.mem_of_mem_filter hp) v hpv

theorem cellProp_foldl {β : Type} (Q : PyVal → Prop)
    (step : DataFrame → β → DataFrame)
    (hstep : ∀ d b, CellProp Q d → CellProp Q (step d b)) :
    ∀ (L : List β) (d : DataFrame), CellProp Q d → CellProp Q (L.foldl step d) := by
  intro L
  induction L with
  | nil => exact fun d h => h
  | cons b t ih =>
    intro d h
    rw [List.foldl_cons]
    exact ih (step d b) (hstep d b h)

/-! getCol? through the frame operations -/

theorem getCol?_setCol_self (df : DataFrame) (c : String) (vals : List PyVal) :
    (df.setCol c vals).getCol? c = some vals := by
  show ((DataFrame.setColAux c vals df.cols).find? (fun p => p.1 == c)).map
      (fun p => p.2) = some vals
  induction df.cols with
  | nil => simp [DataFrame.setColAux]
  | cons a t ih =>
    rw [DataFrame.setColAux]
    by_cases ha : a.1 = c
    · rw [if_pos ha]
      simp [List.find?_cons]
    · rw [if_neg ha]
      rw [List.find?_cons]
      have : (a.1 == c) = false := by simpa using ha
      rw [this]
      exact ih

theorem getCol?_setCol_ne (df : DataFrame) (c' c : String) (vals : List PyVal)
    (h : c' ≠ c) : (df.setCol c' vals).getCol? c = df.getCol? c := by
  show ((DataFrame.setColAux c' vals df.cols).find? (fun p => p.1 == c)).map
        (fun p => p.2)
      = (df.cols.find? (fun p => p.1 == c)).map (fun p => p.2)
  induction df.cols with
  | nil =>
    simp [DataFrame.setColAux, List.find?_cons, show (c' == c) = false by simpa using h]
  | cons a t ih =>
    rw [DataFrame.setColAux]
    by_cases ha : a.1 = c'
    · rw [if_pos ha]
      rw [List.find?_cons, List.find?_cons]
      have e1 : (c' == c) = false := by simpa using h
      have e2 : (a.1 == c) = false := by
        rw [ha]
        exact e1
      rw [e1, e2]
    · rw [if_neg ha]
      rw [List.find?_cons, List.find?_cons]
      cases hac : (a.1 == c) with
      | true => rfl
      | false => exact ih

theorem getCol?_applyCol_ne (df : DataFrame) (src dst c : String)
    (f : PyVal → PyVal) (h : dst ≠ c) :
    (df.applyCol src dst f).getCol? c = df.getCol? c := by
  unfold DataFrame.applyCol
  cases df.getCol? src with
  | none => rfl
  | some col => exact getCol?_setCol_ne df dst c (col.map f) h

theorem getCol?_dropCol_ne (df : DataFrame) (d c : String) (h : d ≠ c) :
    (df.dropCol d).getCol? c = df.getCol? c := by
  show ((df.cols.filter (fun p => !(p.1 == d))).find? (fun p => p.1 == c)).map
        (fun p => p.2)
      = (df.cols.find? (fun p => p.1 == c)).map (fun p => p.2)
  induction df.cols with
  | nil => rfl
  | cons a t ih =>
    rw [List.filter_cons]
    by_cases ha : a.1 = d
    · have e1 : (!(a.1 == d)) = false := by simp [ha]
      have e2 : (a.1 == c) = false := by
        simp only [beq_eq_false_iff_ne, ne_eq]
        rw [ha]
        exact h
      rw [e1]
      simp only [Bool.false_eq_true, if_false]
      rw [List.find?_cons, e2]
      exact ih
    · have e1 : (!(a.1 == d)) = true := by simp [ha]
      rw [e1]
      simp only [if_true]
      rw [List.find?_cons, List.find?_cons]
      cases hac : (a.1 == c) with
      | true => rfl
      | false => exact ih

theorem getCol?_dropCol_self (df : DataFrame) (c : String) :
    (df.dropCol c).getCol? c = none := by
  show ((df.cols.filter (fun p => !(p.1 == c))).find? (fun p => p.1 == c)).map
      (fun p => p.2) = none
  rw [List.find?_eq_none.mpr]
  · rfl
  · intro p hp
    have := List.of_mem_filter hp
    simpa using this

theorem getCol?_dropCol_none (df : DataFrame) (d c : String)
    (h : df.getCol? c = none) : (df.dropCol d).getCol? c = none := by
  by_cases hd : d = c
  · rw [hd]
    exact getCol?_dropCol_self df c
  · rw [getCol?_dropCol_ne df d c hd]
    exact h

/-! identity steps -/

theorem applyCol_absent (df : DataFrame) (src dst : String) (f : PyVal → PyVal)
    (h : df.getCol? src = none) : df.applyCol src dst f = df := by
  unfold DataFrame.applyCol
  rw [h]

theorem setColAux_self (c : String) (vals : List PyVal) :
    ∀ l : List (String × List PyVal),
      (l.find? (fun p => p.1 == c)).map (fun p => p.2) = some vals →
      DataFrame.setColAux c vals l = l := by
  intro l
  induction l with
  | nil =>
    intro h
    simp at h
  | cons a t ih =>
    intro h
    rw [List.find?_cons] at h
    rw [DataFrame.setColAux]
    by_cases ha : a.1 = c
    · rw [if_pos ha]
      have e : (a.1 == c) = true := by simpa using ha
      rw [e] at h
      simp only [Option.map_some', Option.some.injEq] at h
      rw [← h, ← ha, Prod.mk.eta]
    · rw [if_neg ha]
      have e : (a.1 == c) = false := by simpa using ha
      rw [e] at h
      rw [ih h]

theorem setCol_self (df : DataFrame) (c : String) (vals : List PyVal)
    (h : df.getCol? c = some vals) : df.setCol c vals = df := by
  show DataFrame.mk df.nrows (DataFrame.setColAux c vals df.cols)
      = DataFrame.mk df.nrows df.cols
  congr 1
  exact setColAux_self c vals df.cols h

theorem dropCol_absent (df : DataFrame) (c : String)
    (h : df.getCol? c = none) : df.dropCol c = df := by
  show DataFrame.mk df.nrows (df.cols.filter (fun p => !(p.1 == c)))
      = DataFrame.mk df.nrows df.cols
  congr 1
  rw [List.filter_eq_self]
  intro p hp
  simp only [DataFrame.getCol?, Option.map_eq_none'] at h
  have := List.find?_eq_none.mp h p hp
  simpa using this

/-! numeric-column stability -/

/-- The (first) column named `c`, if present, consists of cells fixed by
`to_numeric`. -/
def NumStableCol (df : DataFrame) (c : String) : Prop :=
  ∀ col, df.getCol? c = some col → col.map to_numeric = col

theorem numStable_applyCol_self (df : DataFrame) (c : String) :
    NumStableCol (df.applyCol c c to_numeric) c := by
  intro col hcol
  unfold DataFrame.applyCol at hcol
  cases hg : df.getCol? c with
  | none =>
    simp only [hg] at hcol
    exact Option.noConfusion hcol
  | some col0 =>
    simp only [hg] at hcol
    rw [getCol?_setCol_self] at hcol
    simp only [Option.some.injEq] at hcol
    rw [← hcol]
    apply list_map_id_of
    intro v hv
    simp only [List.mem_map] at hv
    obtain ⟨u, _, rfl⟩ := hv
    show to_numeric (to_numeric u) = to_numeric u
    exact to_numeric_idem u

theorem numStable_applyCol_ne (df : DataFrame) (c' c : String)
    (f : PyVal → PyVal) (h : c' ≠ c) (hs : NumStableCol df c) :
    NumStableCol (df.applyCol c' c' f) c := by
  intro col hcol
  rw [getCol?_applyCol_ne df c' c' c f h] at hcol
  exact hs col hcol

theorem numStable_dropCol (df : DataFrame) (d c : String) (h : d ≠ c)
    (hs : NumStableCol df c) : NumStableCol (df.dropCol d) c := by
  intro col hcol
  rw [getCol?_dropCol_ne df d c h] at hcol
  exact hs col hcol

theorem numFold_pres (c : String) :
    ∀ (L : List String), c ∉ L → ∀ df, NumStableCol df c →
      NumStableCol (L.foldl (fun d c' => d.applyCol c' c' to_numeric) df) c := by
  intro L
  induction L with
  | nil => exact fun _ df h => h
  | cons b t ih =>
    intro hnot df h
    rw [List.foldl_cons]
    exact ih (fun hc => hnot (List.mem_cons_of_mem _ hc))
      (df.applyCol b b to_numeric)
      (numStable_applyCol_ne df b c to_numeric
        (fun hb => hnot (hb ▸ List.mem_cons_self _ _)) h)

theorem numFold_stable :
    ∀ (L : List String), L.Nodup → ∀ df, ∀ c ∈ L,
      NumStableCol (L.foldl (fun d c' => d.applyCol c' c' to_numeric) df) c := by
  intro L
  induction L with
  | nil =>
    intro _ df c hc
    simp at hc
  | cons b t ih =>
    intro hnd df c hc
    rw [List.foldl_cons]
    rcases List.mem_cons.mp hc with rfl | hc'
    · exact numFold_pres c t (List.Nodup.not_mem hnd) _
        (numStable_applyCol_self df c)
    · exact ih (List.Nodup.of_cons hnd) _ c hc'

theorem dropsFold_numStable (c : String) :
    ∀ (L : List String), c ∉ L → ∀ df, NumStableCol df c →
      NumStableCol (L.foldl (fun d c' => d.dropCol c') df) c := by
  intro L
  induction L with
  | nil => exact fun _ df h => h
  | cons b t ih =>
    intro hnot df h
    rw [List.foldl_cons]
    exact ih (fun hc => hnot (List.mem_cons_of_mem _ hc)) (df.dropCol b)
      (numStable_dropCol df b c
        (fun hb => hnot (hb ▸ List.mem_cons_self _ _)) h)

/-! absence of the dropped columns -/

theorem dropsFold_none (c : String) :
    ∀ (L : List String), ∀ df : DataFrame, df.getCol? c = none →
      (L.foldl (fun d c' => d.dropCol c') df).getCol? c = none := by
  intro L
  induction L with
  | nil => exact fun df h => h
  | cons b t ih =>
    intro df h
    rw [List.foldl_cons]
    exact ih (df.dropCol b) (getCol?_dropCol_none df b c h)

theorem dropsFold_absent (c : String) :
    ∀ (L : List String), c ∈ L → ∀ df : DataFrame,
      (L.foldl (fun d c' => d.dropCol c') df).getCol? c = none := by
  intro L
  induction L with
  | nil =>
    intro hc
    simp at hc
  | cons b t ih =>
    intro hc df
    rw [List.foldl_cons]
    rcases List.mem_cons.mp hc with rfl | hc'
    · exact dropsFold_none c t (df.dropCol c) (getCol?_dropCol_self df c)
    · exact ih hc' (df.dropCol b)

/-! fold steps that are the identity -/

theorem applyCol_numStable_id (df : DataFrame) (c : String)
    (hs : NumStableCol df c) : df.applyCol c c to_numeric = df := by
  unfold DataFrame.applyCol
  cases hg : df.getCol? c with
  | none => rfl
  | some col =>
    show df.setCol c (col.map to_numeric) = df
    rw [hs col hg]
    exact setCol_self df c col hg

theorem numFold_id (df : DataFrame) :
    ∀ L : List String, (∀ c ∈ L, NumStableCol df c) →
      L.foldl (fun d c' => d.applyCol c' c' to_numeric) df = df := by
  intro L
  induction L with
  | nil => exact fun _ => rfl
  | cons b t ih =>
    intro h
    rw [List.foldl_cons, applyCol_numStable_id df b (h b (List.mem_cons_self _ _))]
    exact ih (fun c hc => h c (List.mem_cons_of_mem _ hc))

theorem applyFold_absent_id (df : DataFrame) (g : String → String)
    (f : PyVal → PyVal) :
    ∀ L : List String, (∀ c ∈ L, df.getCol? c = none) →
      L.foldl (fun d c' => d.applyCol c' (g c') f) df = df := by
  intro L
  induction L with
  | nil => exact fun _ => rfl
  | cons b t ih =>
    intro h
    rw [List.foldl_cons, applyCol_absent df b (g b) f (h b (List.mem_cons_self _ _))]
    exact ih (fun c hc => h c (List.mem_cons_of_mem _ hc))

theorem dropsFold_absent_id (df : DataFrame) :
    ∀ L : List String, (∀ c ∈ L, df.getCol? c = none) →
      L.foldl (fun d c' => d.dropCol c') df = df := by
  intro L
  induction L with
  | nil => exact fun _ => rfl
  | cons b t ih =>
    intro h
    rw [List.foldl_cons, dropCol_absent df b (h b (List.mem_cons_self _ _))]
    exact ih (fun c hc => h c (List.mem_cons_of_mem _ hc))

/-- With no lookup tables the three merge steps vanish and
`enrich_and_clean` is the plain composition of its remaining steps. -/
theorem enrich_nomaps_eq (d : DataFrame) :
    enrich_and_clean d none none none =
      drop_cols.foldl (fun x c => x.dropCol c)
        (numeric_like.foldl (fun x c => x.applyCol c c to_numeric)
          (["diag_1", "diag_2", "diag_3"].foldl
            (fun x c => x.applyCol c (c ++ "_chapter") icdCell)
            ((d.mapCells clean_special_strings).applyCol "age" "age_years"
              age_midpoint))) := rfl

/-- C2 (amended): with the three lookup tables absent, the enrichment is
idempotent — the second pass's token cleaning fixes every cell the first
pass produced, the age and diagnosis source columns are already dropped,
the numeric columns are already numeric, and the drop step finds nothing
left to drop. -/
theorem enrich_idempotent_nomaps (df : DataFrame) :
    enrich_and_clean (enrich_and_clean df none none none) none none none =
      enrich_and_clean df none none none := by
  have hCP : CellProp (fun v => clean_special_strings v = v)
      (enrich_and_clean df none none none) := by
    rw [enrich_nomaps_eq]
    refine cellProp_foldl _ _ (fun d b h => cellProp_dropCol _ d b h)
      drop_cols _ ?_
    refine cellProp_foldl _ _
      (fun d b h => cellProp_applyCol _ d b b to_numeric h clean_to_numeric_out)
      numeric_like _ ?_
    refine cellProp_foldl _ _
      (fun d b h =>
        cellProp_applyCol _ d b (b ++ "_chapter") icdCell h clean_icdCell_out)
      _ _ ?_
    refine cellProp_applyCol _ _ "age" "age_years" age_midpoint ?_
      clean_midpoint_out
    exact cellProp_mapCells _ df clean_special_strings clean_idem
  have habs : ∀ c ∈ drop_cols,
      (enrich_and_clean df none none none).getCol? c = none := by
    intro c hc
    rw [enrich_nomaps_eq]
    exact dropsFold_absent c drop_cols hc _
  have hnum : ∀ c ∈ numeric_like,
      NumStableCol (enrich_and_clean df none none none) c := by
    have hdisj : ∀ c ∈ numeric_like, c ∉ drop_cols := by decide
    have hnd : numeric_like.Nodup := by decide
    intro c hc
    rw [enrich_nomaps_eq]
    exact dropsFold_numStable c drop_cols (hdisj c hc) _
      (numFold_stable numeric_like hnd _ c hc)
  have hdiag : ∀ c ∈ ["diag_1", "diag_2", "diag_3"], c ∈ drop_cols := by decide
  conv_lhs => rw [enrich_nomaps_eq]
  rw [mapCells_eq_self _ _ hCP]
  rw [applyCol_absent _ "age" "age_years" age_midpoint (habs "age" (by decide))]
  rw [applyFold_absent_id _ (fun c => c ++ "_chapter") icdCell _
    (fun c hc => habs c (hdiag c hc))]
  rw [numFold_id _ numeric_like hnum]
  rw [dropsFold_absent_id _ drop_cols habs]

end Readmit


